import Mathlib

/-!
# Verification of the SharePoint → Astra ingestion pipeline

Shallow embedding of the core logic of the `llamaindex-streamlit` repository:

* `splitText` — `SimpleTextSplitter.split_text` (src/utils/document_processor.py),
  including Python's `str.split` semantics and the `ValueError` raised by
  `str.split('')` on an empty separator, modelled as `Except.error`;
* `insertDocuments` — `AstraClient.insert_documents` (src/utils/astra_client.py),
  with the store's per-batch insert outcome and per-document preparation outcome
  supplied as oracles;
* `generateHash` — `DocumentProcessor._generate_hash` (MD5 of the content bytes);
* `filterRecentItems` — `filter_recent_items` (src/utils/helpers.py);
* `processSharePointDocuments` — the session-state update skeleton of
  `process_sharepoint_documents` (src/streamlit_app.py);
* `extractTextByType` — the format dispatch of
  `DocumentProcessor._extract_text_by_type`, with the per-format extraction
  routines (external libraries) as an oracle and the fallback branch
  (`content.decode('utf-8', errors='ignore')`) modelled byte-exactly.

Python strings are modelled as `List Char` (sequences of code points), byte
strings as `List Nat` (each element `< 256`).
-/

namespace LlamaIndexStreamlit

/-! ## Chunker: `SimpleTextSplitter.split_text` -/

/-- Characters Python's `str.strip()` removes (ASCII whitespace). -/
def isPySpace (c : Char) : Bool :=
  c = ' ' || c = '\t' || c = '\n' || c = '\r' || c = '\x0b' || c = '\x0c'

/-- Python `s.strip()`: drop leading and trailing whitespace. -/
def pyStrip (s : List Char) : List Char :=
  ((s.dropWhile isPySpace).reverse.dropWhile isPySpace).reverse

/-- Auxiliary for `pySplit`: scan `s`, cutting at each leftmost occurrence of the
non-empty separator `sep`; `acc` holds the piece being built, reversed.  The
fuel is an upper bound on the remaining characters (each step consumes at least
one character of `s`). -/
def pySplitAux (sep : List Char) : Nat → List Char → List Char → List (List Char)
  | 0, acc, s => [acc.reverse ++ s]
  | fuel + 1, acc, s =>
    if sep.isPrefixOf s ∧ ¬sep.isEmpty then
      acc.reverse :: pySplitAux sep fuel [] (s.drop sep.length)
    else
      match s with
      | [] => [acc.reverse]
      | c :: rest => pySplitAux sep fuel (c :: acc) rest

/-- Python `s.split(sep)` for a non-empty separator `sep`
(e.g. `"abcd".split("bc") == ["a", "d"]`). -/
def pySplit (sep s : List Char) : List (List Char) :=
  pySplitAux sep (s.length + 1) [] s

/-- One pass of the separator cascade in `split_text`: pieces longer than
`chunkSize` are split by `sep`, shorter pieces pass through unchanged.  When
`sep` is the empty string, Python's `str.split('')` raises
`ValueError: empty separator`, modelled as `.error ()`. -/
def applySep (chunkSize : Nat) (sep : List Char) :
    List (List Char) → Except Unit (List (List Char))
  | [] => .ok []
  | s :: rest =>
    if chunkSize < s.length then
      if sep.isEmpty then .error ()
      else
        match applySep chunkSize sep rest with
        | .error e => .error e
        | .ok tail => .ok (pySplit sep s ++ tail)
    else
      match applySep chunkSize sep rest with
      | .error e => .error e
      | .ok tail => .ok (s :: tail)

/-- Apply the ordered separator cascade, coarsest separator first. -/
def applySeps (chunkSize : Nat) :
    List (List Char) → List (List Char) → Except Unit (List (List Char))
  | [], splits => .ok splits
  | sep :: more, splits =>
    match applySep chunkSize sep splits with
    | .error e => .error e
    | .ok splits' => applySeps chunkSize more splits'

/-- The default separator cascade `["\n\n", "\n", ". ", " ", ""]`. -/
def defaultSeparators : List (List Char) :=
  [['\n', '\n'], ['\n'], ['.', ' '], [' '], []]

/-- The chunk-reassembly loop of `split_text`: greedily append splits to
`current` while it stays within `chunkSize`; on overflow close `current`
(stripped) and seed the next chunk with the trailing `chunkOverlap` characters
of the last closed chunk. -/
def combineSplits (chunkSize chunkOverlap : Nat) :
    List (List Char) → List Char → List (List Char) → List (List Char) × List Char
  | chunks, current, [] => (chunks, current)
  | chunks, current, s :: rest =>
    if current.length + s.length ≤ chunkSize then
      combineSplits chunkSize chunkOverlap chunks (current ++ s) rest
    else
      let chunks' := if current.isEmpty then chunks else chunks ++ [pyStrip current]
      let current' :=
        if 0 < chunkOverlap ∧ ¬chunks'.isEmpty then
          let last := chunks'.getLastD []
          (if chunkOverlap < last.length then last.drop (last.length - chunkOverlap)
           else last) ++ s
        else s
      combineSplits chunkSize chunkOverlap chunks' current' rest

/-- `SimpleTextSplitter.split_text`.  `.error ()` marks the input on which the
Python code raises (`ValueError` from `''.split('')`, reached whenever a piece
still exceeds `chunkSize` when the empty separator comes up). -/
def splitText (chunkSize chunkOverlap : Nat) (text : List Char) :
    Except Unit (List (List Char)) :=
  if text.isEmpty ∨ text.length ≤ chunkSize then
    .ok (if text.isEmpty then [] else [text])
  else
    match applySeps chunkSize defaultSeparators [text] with
    | .error e => .error e
    | .ok splits =>
      let (chunks, current) := combineSplits chunkSize chunkOverlap [] [] splits
      let chunks := if current.isEmpty then chunks else chunks ++ [pyStrip current]
      .ok (chunks.filter fun c => ¬(pyStrip c).isEmpty)

/-! ## Batch loader: `AstraClient.insert_documents` -/

/-- The counts in the dictionary returned by `insert_documents`. -/
structure InsertResult where
  successful : Nat
  failed : Nat
  total : Nat
  deriving Repr, DecidableEq

/-- The Python batching expression
`[documents[i:i + batch_size] for i in range(0, len(documents), batch_size)]`. -/
def sliceBatches (batchSize : Nat) (documents : List α) : List (List α) :=
  (List.range ((documents.length + batchSize - 1) / batchSize)).map
    fun i => (documents.drop (i * batchSize)).take batchSize

/-- Recursive form of `sliceBatches` (take a batch, recurse on the rest);
proved equal to `sliceBatches` for a positive batch size below. -/
def chunkList (n : Nat) : List α → List (List α)
  | [] => []
  | x :: xs => ((x :: xs).take n) :: chunkList n (xs.drop (n - 1))
  termination_by l => l.length
  decreasing_by simp; omega

/-- The per-batch loop of `insert_documents`, batch numbers counted from `i`.
`insertOk b` tells whether the store accepts batch number `b` (`insert_many`
succeeds); `prepOk d` tells whether preparing document `d` succeeds (the inner
`try`).  Returns (successful, failed, numbers of batches submitted to the
store). -/
def runBatches (insertOk : Nat → Bool) (prepOk : α → Bool) :
    Nat → List (List α) → Nat × Nat × List Nat
  | _, [] => (0, 0, [])
  | i, batch :: rest =>
    let prepared := batch.filter prepOk
    let failedPrep := batch.length - prepared.length
    let r := runBatches insertOk prepOk (i + 1) rest
    if prepared.isEmpty then (r.1, failedPrep + r.2.1, r.2.2)
    else if insertOk i then (prepared.length + r.1, failedPrep + r.2.1, i :: r.2.2)
    else (r.1, prepared.length + failedPrep + r.2.1, i :: r.2.2)

/-- `AstraClient.insert_documents`.  `collectionAvailable` models
`self.collection` being non-`None`.  Returns the result counts together with
the list of batch numbers for which `insert_many` was attempted.  The function
is total: the Python code catches every exception internally and always
returns a dictionary with keys `successful`, `failed`, `total`. -/
def insertDocuments (collectionAvailable : Bool) (insertOk : Nat → Bool)
    (prepOk : α → Bool) (documents : List α) : InsertResult × List Nat :=
  if ¬collectionAvailable then
    (⟨0, documents.length, documents.length⟩, [])
  else
    let batches := sliceBatches 20 documents
    let (s, f, sub) := runBatches insertOk prepOk 0 batches
    (⟨s, f, documents.length⟩, sub)

/-- Specification-side sum: total size of the batches (numbered from `i`) whose
insert outcome equals `want`. -/
def batchOutcomeSum (insertOk : Nat → Bool) (want : Bool) :
    Nat → List (List α) → Nat
  | _, [] => 0
  | i, b :: rest =>
    (if insertOk i = want then b.length else 0) + batchOutcomeSum insertOk want (i + 1) rest

/-! ## Fingerprint: `DocumentProcessor._generate_hash` (MD5 of content bytes) -/

/-- Per-round left-rotation amounts of MD5 (RFC 1321). -/
def md5s : List Nat :=
  [7, 12, 17, 22, 7, 12, 17, 22, 7, 12, 17, 22, 7, 12, 17, 22,
   5, 9, 14, 20, 5, 9, 14, 20, 5, 9, 14, 20, 5, 9, 14, 20,
   4, 11, 16, 23, 4, 11, 16, 23, 4, 11, 16, 23, 4, 11, 16, 23,
   6, 10, 15, 21, 6, 10, 15, 21, 6, 10, 15, 21, 6, 10, 15, 21]

/-- Per-round additive constants of MD5 (RFC 1321). -/
def md5K : List Nat :=
  [0xd76aa478, 0xe8c7b756, 0x242070db, 0xc1bdceee,
   0xf57c0faf, 0x4787c62a, 0xa8304613, 0xfd469501,
   0x698098d8, 0x8b44f7af, 0xffff5bb1, 0x895cd7be,
   0x6b901122, 0xfd987193, 0xa679438e, 0x49b40821,
   0xf61e2562, 0xc040b340, 0x265e5a51, 0xe9b6c7aa,
   0xd62f105d, 0x02441453, 0xd8a1e681, 0xe7d3fbc8,
   0x21e1cde6, 0xc33707d6, 0xf4d50d87, 0x455a14ed,
   0xa9e3e905, 0xfcefa3f8, 0x676f02d9, 0x8d2a4c8a,
   0xfffa3942, 0x8771f681, 0x6d9d6122, 0xfde5380c,
   0xa4beea44, 0x4bdecfa9, 0xf6bb4b60, 0xbebfbc70,
   0x289b7ec6, 0xeaa127fa, 0xd4ef3085, 0x04881d05,
   0xd9d4d039, 0xe6db99e5, 0x1fa27cf8, 0xc4ac5665,
   0xf4292244, 0x432aff97, 0xab9423a7, 0xfc93a039,
   0x655b59c3, 0x8f0ccc92, 0xffeff47d, 0x85845dd1,
   0x6fa87e4f, 0xfe2ce6e0, 0xa3014314, 0x4e0811a1,
   0xf7537e82, 0xbd3af235, 0x2ad7d2bb, 0xeb86d391]

/-- Left-rotate a 32-bit word by `n` bits. -/
def rotl32 (x n : Nat) : Nat :=
  ((x <<< n) + (x >>> (32 - n))) % 2 ^ 32

/-- `k` bytes of `n` in little-endian order. -/
def toLEBytes (k n : Nat) : List Nat :=
  (List.range k).map fun i => n / 256 ^ i % 256

/-- MD5 padding: append `0x80`, zero bytes up to 56 mod 64, then the bit length
as 8 little-endian bytes. -/
def md5Pad (msg : List Nat) : List Nat :=
  msg ++ [0x80] ++ List.replicate ((119 - msg.length % 64) % 64) 0 ++
    toLEBytes 8 (msg.length * 8 % 2 ^ 64)

/-- Word `g` (little-endian 32-bit) of a 64-byte block. -/
def md5Word (block : List Nat) (g : Nat) : Nat :=
  block.getD (4 * g) 0 + 256 * block.getD (4 * g + 1) 0 +
    65536 * block.getD (4 * g + 2) 0 + 16777216 * block.getD (4 * g + 3) 0

/-- One MD5 round: state `(a, b, c, d)`, round index `i`. -/
def md5Round (block : List Nat) (st : Nat × Nat × Nat × Nat) (i : Nat) :
    Nat × Nat × Nat × Nat :=
  let (a, b, c, d) := st
  let mask := 0xffffffff
  let (f, g) :=
    if i < 16 then ((b &&& c) ||| ((b ^^^ mask) &&& d), i)
    else if i < 32 then ((d &&& b) ||| ((d ^^^ mask) &&& c), (5 * i + 1) % 16)
    else if i < 48 then (b ^^^ c ^^^ d, (3 * i + 5) % 16)
    else (c ^^^ (b ||| (d ^^^ mask)), 7 * i % 16)
  let f := (f + a + md5K.getD i 0 + md5Word block g) % 2 ^ 32
  (d, (b + rotl32 f (md5s.getD i 0)) % 2 ^ 32, b, c)

/-- Process one 64-byte block. -/
def md5Block (st : Nat × Nat × Nat × Nat) (block : List Nat) :
    Nat × Nat × Nat × Nat :=
  let (a0, b0, c0, d0) := st
  let (a, b, c, d) := (List.range 64).foldl (md5Round block) st
  ((a0 + a) % 2 ^ 32, (b0 + b) % 2 ^ 32, (c0 + c) % 2 ^ 32, (d0 + d) % 2 ^ 32)

/-- MD5 digest (16 bytes) of a byte string. -/
def md5Bytes (msg : List Nat) : List Nat :=
  let (a, b, c, d) :=
    (chunkList 64 (md5Pad msg)).foldl md5Block
      (0x67452301, 0xefcdab89, 0x98badcfe, 0x10325476)
  toLEBytes 4 a ++ toLEBytes 4 b ++ toLEBytes 4 c ++ toLEBytes 4 d

/-- Lower-case hex digit of `n < 16`. -/
def hexDigit (n : Nat) : Char :=
  if n < 10 then Char.ofNat (48 + n) else Char.ofNat (87 + n)

/-- `hashlib.md5(content).hexdigest()`: lower-case hex string of the digest. -/
def md5Hexdigest (msg : List Nat) : List Char :=
  (md5Bytes msg).flatMap fun b => [hexDigit (b / 16), hexDigit (b % 16)]

/-- `DocumentProcessor._generate_hash`: the MD5 hex digest of the raw file
content — and of nothing else. -/
def generateHash (content : List Nat) : List Char :=
  md5Hexdigest content

/-- A fetched source item as the pipeline sees it: display name, last-modified
marker, origin path, raw content bytes. -/
structure SourceItem where
  name : String
  modified : String
  path : String
  content : List Nat

/-- The `document_hash` metadata value computed in
`DocumentProcessor.process_uploaded_file`: `self._generate_hash(content)`,
where `content` is the raw file bytes. -/
def documentHashOf (item : SourceItem) : List Char :=
  generateHash item.content

/-! ## Change filtering: `filter_recent_items` (src/utils/helpers.py) -/

/-- The value found under the timestamp key of an item, as the Python code
discriminates it: a string (with the result of `datetime.fromisoformat`, which
may raise → `none`), a `datetime`, or anything else.  Times are modelled as
`Nat`. -/
inductive TSVal
  | strVal (parsed : Option Nat)
  | dtVal (t : Nat)
  | otherVal

/-- An entry of the processing-status list: the timestamp field
(`none` when the key is absent) plus an opaque payload. -/
structure LogItem (β : Type) where
  timestamp : Option TSVal
  payload : β

/-- The timestamp `filter_recent_items` manages to extract from an item:
`none` means the item is skipped (`continue`). -/
def itemTime : Option TSVal → Option Nat
  | some (.strVal p) => p
  | some (.dtVal t) => some t
  | some .otherVal => none
  | none => none

/-- `filter_recent_items`: keep exactly the items whose extracted timestamp is
at least the cutoff; items with a missing or unparseable timestamp are
skipped. -/
def filterRecentItems (cutoff : Nat) : List (LogItem β) → List (LogItem β)
  | [] => []
  | item :: rest =>
    match itemTime item.timestamp with
    | some t =>
      if cutoff ≤ t then item :: filterRecentItems cutoff rest
      else filterRecentItems cutoff rest
    | none => filterRecentItems cutoff rest

/-! ## Sync bookkeeping: `process_sharepoint_documents` (src/streamlit_app.py) -/

/-- The session state touched by a sync run. -/
structure SessionState where
  lastSyncTime : Option Nat
  documentCount : Nat
  deriving Repr, DecidableEq

/-- How a run of `process_sharepoint_documents` ends: no documents matched the
criteria (early return), an exception was caught (the `except` branch), or the
processing loop completed with `totalSuccessful` successful documents. -/
inductive RunOutcome
  | noDocs
  | errored
  | completed (totalSuccessful : Nat)

/-- The session-state update skeleton of `process_sharepoint_documents`:
`startTime` is `datetime.now()` read at entry (`start_time`), `completionTime`
is `datetime.now()` read at the update point after the processing loop.  Only
the completed path assigns `st.session_state.last_sync_time` — and it assigns
the completion-time reading, not `start_time`. -/
def processSharePointDocuments (startTime completionTime : Nat)
    (outcome : RunOutcome) (s : SessionState) : SessionState :=
  match outcome with
  | .noDocs => s
  | .errored => s
  | .completed n =>
    { s with
      documentCount := s.documentCount + n
      lastSyncTime := some completionTime }

/-! ## Text-extractor fallback: `DocumentProcessor._extract_text_by_type` -/

/-- Is `b` a UTF-8 continuation byte (`0x80`–`0xBF`)? -/
def contByte (b : Nat) : Bool := 0x80 ≤ b && b < 0xC0

/-- Valid first continuation byte after a three-byte lead (excludes overlong
forms and surrogates, as CPython does). -/
def cont3Fst (lead c : Nat) : Bool :=
  if lead = 0xE0 then 0xA0 ≤ c && c < 0xC0
  else if lead = 0xED then 0x80 ≤ c && c < 0xA0
  else contByte c

/-- Valid first continuation byte after a four-byte lead (excludes overlong
forms and code points above `U+10FFFF`). -/
def cont4Fst (lead c : Nat) : Bool :=
  if lead = 0xF0 then 0x90 ≤ c && c < 0xC0
  else if lead = 0xF4 then 0x80 ≤ c && c < 0x90
  else contByte c

/-- `bytes.decode('utf-8', errors='ignore')`: decode UTF-8, skipping invalid
sequences (the maximal valid subpart is consumed and dropped; nothing is
emitted for it).  Returns the decoded code points.  The fuel is an upper bound
on the remaining bytes; each step consumes at least one byte. -/
def decodeIgnoreAux : Nat → List Nat → List Nat
  | 0, _ => []
  | _ + 1, [] => []
  | fuel + 1, b :: rest =>
    if b < 0x80 then b :: decodeIgnoreAux fuel rest
    else if b < 0xC2 then decodeIgnoreAux fuel rest
    else if b ≤ 0xDF then
      match rest with
      | [] => []
      | c1 :: r1 =>
        if contByte c1 then
          ((b - 0xC0) * 0x40 + (c1 - 0x80)) :: decodeIgnoreAux fuel r1
        else decodeIgnoreAux fuel rest
    else if b ≤ 0xEF then
      match rest with
      | [] => []
      | c1 :: r1 =>
        if ¬cont3Fst b c1 then decodeIgnoreAux fuel rest
        else
          match r1 with
          | [] => []
          | c2 :: r2 =>
            if contByte c2 then
              ((b - 0xE0) * 0x1000 + (c1 - 0x80) * 0x40 + (c2 - 0x80)) ::
                decodeIgnoreAux fuel r2
            else decodeIgnoreAux fuel r1
    else if b ≤ 0xF4 then
      match rest with
      | [] => []
      | c1 :: r1 =>
        if ¬cont4Fst b c1 then decodeIgnoreAux fuel rest
        else
          match r1 with
          | [] => []
          | c2 :: r2 =>
            if ¬contByte c2 then decodeIgnoreAux fuel r1
            else
              match r2 with
              | [] => []
              | c3 :: r3 =>
                if contByte c3 then
                  ((b - 0xF0) * 0x40000 + (c1 - 0x80) * 0x1000 +
                      (c2 - 0x80) * 0x40 + (c3 - 0x80)) ::
                    decodeIgnoreAux fuel r3
                else decodeIgnoreAux fuel r2
    else decodeIgnoreAux fuel rest

/-- `bytes.decode('utf-8', errors='ignore')` on a byte string, as a total
function producing code points: undecodable bytes are dropped, never replaced
and never an error. -/
def decodeIgnore (bs : List Nat) : List Nat :=
  decodeIgnoreAux bs.length bs

/-- The format hints `_extract_text_by_type` recognizes (given whether the
`pptx` library imported). -/
def recognizedType (pptxAvailable : Bool) (ft : String) : Bool :=
  ft = "pdf" || ft = "docx" || ft = "txt" || ft = "md" || ft = "html" ||
    ft = "csv" || ft = "json" || ft = "xml" || (ft = "pptx" && pptxAvailable) ||
    ft = "xlsx"

/-- The dispatch of `DocumentProcessor._extract_text_by_type`: a recognized
format goes to its extraction routine (`handler`, an oracle for the
library-backed extractors); anything else falls back to
`content.decode('utf-8', errors='ignore')`. -/
def extractTextByType (handler : String → List Nat → List Nat)
    (pptxAvailable : Bool) (ft : String) (content : List Nat) : List Nat :=
  if ft = "pdf" then handler ft content
  else if ft = "docx" then handler ft content
  else if ft = "txt" then handler ft content
  else if ft = "md" then handler ft content
  else if ft = "html" then handler ft content
  else if ft = "csv" then handler ft content
  else if ft = "json" then handler ft content
  else if ft = "xml" then handler ft content
  else if ft = "pptx" && pptxAvailable then handler ft content
  else if ft = "xlsx" then handler ft content
  else decodeIgnore content

/-! ## Concrete texts for the chunk-size scenario (claim C4) -/

/-- A three-token text: `n₁` `a`s, a space, `n₂` `b`s, a space, `n₃` `c`s. -/
def tokText (n₁ n₂ n₃ : Nat) : List Char :=
  List.replicate n₁ 'a' ++ ' ' :: (List.replicate n₂ 'b' ++ ' ' :: List.replicate n₃ 'c')

/-- A 2,400-character text on which `split_text(chunkSize=1000, overlap=200)`
returns a middle chunk of 1,100 characters: 900 `a`s, a space, 900 `b`s, a
space, 598 `c`s. -/
def overflowText : List Char := tokText 900 900 598

/-- A 2,400-character text realizing the spec's scenario exactly: 800 `a`s, a
space, 800 `b`s, a space, 798 `c`s. -/
def scenarioText : List Char := tokText 800 800 798

/-! ## Basic chunker lemmas -/

theorem splitText_short (chunkSize chunkOverlap : Nat) (t : List Char)
    (h : t.length ≤ chunkSize) :
    splitText chunkSize chunkOverlap t = .ok (if t.isEmpty then [] else [t]) := by
  unfold splitText
  rw [if_pos (Or.inr h)]

/-- C1 — the claim's crash point, at a concrete input: four `a`s with
`chunkSize = 3`.  No coarse separator occurs, so the piece reaches the empty
separator still oversized and `''.split('')` raises. -/
theorem splitText_error_on_unsplittable :
    splitText 3 0 ['a', 'a', 'a', 'a'] = .error () := rfl

/-- C3 counterexample — `split_text("aaaa bbbb", chunkSize 4, overlap 0)`
returns `["aaaa", "bbbb"]`: the space consumed by the separator split is gone,
so concatenating the chunks (overlap is 0, so nothing is removed) does not
reconstruct the input. -/
theorem splitText_not_reconstructing :
    splitText 4 0 ['a', 'a', 'a', 'a', ' ', 'b', 'b', 'b', 'b']
        = .ok [['a', 'a', 'a', 'a'], ['b', 'b', 'b', 'b']] ∧
      ['a', 'a', 'a', 'a'] ++ ['b', 'b', 'b', 'b']
        ≠ ['a', 'a', 'a', 'a', ' ', 'b', 'b', 'b', 'b'] := by
  exact ⟨rfl, by decide⟩

/-- C3 amended — the round trip does hold whenever the text fits in a single
chunk: a non-empty text of length at most `chunkSize` comes back as the single
chunk `[text]`, whose concatenation is the text itself.  (For longer texts the
separator characters consumed by splitting are lost, see the
counterexample.) -/
theorem splitText_roundtrip_short (chunkSize chunkOverlap : Nat) (t : List Char)
    (hpos : 0 < chunkSize) (hne : t ≠ []) (hlen : t.length ≤ chunkSize) :
    splitText chunkSize chunkOverlap t = .ok [t] ∧ [t].flatten = t := by
  refine ⟨?_, by simp⟩
  rw [splitText_short chunkSize chunkOverlap t hlen, if_neg]
  simpa using hne

theorem splitText_roundtrip_short_witness :
    splitText 5 2 ['h', 'i'] = .ok [['h', 'i']] ∧ [['h', 'i']].flatten = ['h', 'i'] :=
  splitText_roundtrip_short 5 2 ['h', 'i'] (by decide) (by decide) (by decide)

/-- C5 counterexample — a single space fits in `chunkSize`, so the short-circuit
branch returns it unchanged: `split_text(" ")` yields one chunk that is pure
whitespace, which the claimed blank-filtering would have removed. -/
theorem splitText_returns_blank_chunk :
    splitText 5 0 [' '] = .ok [[' ']] ∧ pyStrip [' '] = [] :=
  ⟨rfl, rfl⟩

/-- C5 amended — empty text yields no chunk; non-empty text within `chunkSize`
yields exactly the one chunk `[text]` (returned verbatim, even if blank); and
chunks produced through the splitting path (text longer than `chunkSize`) are
filtered so that none of them is empty or whitespace-only. -/
theorem splitText_degenerate_cases :
    (∀ chunkSize chunkOverlap, splitText chunkSize chunkOverlap ([] : List Char) = .ok []) ∧
    (∀ chunkSize chunkOverlap (t : List Char), t ≠ [] → t.length ≤ chunkSize →
      splitText chunkSize chunkOverlap t = .ok [t]) ∧
    (∀ chunkSize chunkOverlap (t : List Char) res, chunkSize < t.length →
      splitText chunkSize chunkOverlap t = .ok res → ∀ c ∈ res, pyStrip c ≠ []) := by
  refine ⟨fun cs ov => by rw [splitText_short] <;> simp, ?_, ?_⟩
  · intro cs ov t hne hlen
    rw [splitText_short cs ov t hlen, if_neg]
    simpa using hne
  · intro cs ov t res hlen heq c hc
    unfold splitText at heq
    rw [if_neg (by simp only [List.isEmpty_iff, not_or, not_le]
                   exact ⟨fun h => by simp [h] at hlen, hlen⟩)] at heq
    cases happ : applySeps cs defaultSeparators [t] with
    | error e => rw [happ] at heq; exact absurd heq (by simp)
    | ok splits =>
      rw [happ] at heq
      simp only [Except.ok.injEq] at heq
      subst heq
      have := List.mem_filter.mp hc
      simpa using this.2

theorem splitText_degenerate_cases_witness :
    splitText 5 1 ['h', 'i'] = .ok [['h', 'i']] ∧
      splitText 2 0 ['x', 'y', ' ', 'z'] = .ok [['x', 'y'], ['z']] ∧
      pyStrip ['x', 'y'] ≠ [] := by
  refine ⟨splitText_degenerate_cases.2.1 5 1 ['h', 'i'] (by decide) (by decide), rfl, ?_⟩
  exact splitText_degenerate_cases.2.2 2 0 ['x', 'y', ' ', 'z'] [['x', 'y'], ['z']]
    (by decide) rfl ['x', 'y'] (by simp)

/-- C6 counterexample — two items with identical content bytes but different
name, modified time and path receive the *same* fingerprint:
`_generate_hash` hashes `content` alone, so no metadata-only change can alter
it. -/
theorem generateHash_ignores_metadata :
    documentHashOf ⟨"report.txt", "2024-01-01T10:00:00", "/docs/a", [104, 105]⟩ =
        documentHashOf ⟨"summary.txt", "2024-02-02T12:00:00", "/docs/b", [104, 105]⟩ ∧
      ("report.txt" : String) ≠ "summary.txt" ∧
      ("2024-01-01T10:00:00" : String) ≠ "2024-02-02T12:00:00" ∧
      ("/docs/a" : String) ≠ "/docs/b" :=
  ⟨rfl, by decide, by decide, by decide⟩

/-- C6 amended — the fingerprint is deterministic, and it is a function of the
raw content bytes only (the MD5 hex digest of `content`): items that agree on
content agree on fingerprint regardless of name, modified time or path. -/
theorem generateHash_deterministic_content_only :
    (∀ item : SourceItem, documentHashOf item = documentHashOf item) ∧
    (∀ x y : SourceItem, x.content = y.content → documentHashOf x = documentHashOf y) :=
  ⟨fun _ => rfl, fun x y h => by simp [documentHashOf, generateHash, h]⟩

theorem generateHash_deterministic_content_only_witness :
    documentHashOf ⟨"a.txt", "2024", "/p", [1, 2]⟩ =
      documentHashOf ⟨"b.txt", "2025", "/q", [1, 2]⟩ :=
  generateHash_deterministic_content_only.2 _ _ rfl

/-- C7 counterexample — an item with no (valid) timestamp is present in the
input but lands in no output bucket: `filter_recent_items` silently drops it
(`continue`), so the output does not partition the input. -/
theorem filterRecentItems_drops_item :
    (⟨none, 0⟩ : LogItem Nat) ∈ ([⟨none, 0⟩] : List (LogItem Nat)) ∧
      filterRecentItems 5 [(⟨none, 0⟩ : LogItem Nat)] = [] :=
  ⟨by simp, rfl⟩

/-- C7 amended — what the code computes is a single recency-filtered list, not
a three-way partition: an item is returned exactly when it occurs in the input
and carries a parseable timestamp at least the cutoff; items with missing or
unparseable timestamps (and older items) are dropped. -/
theorem filterRecentItems_mem_iff {β : Type} (cutoff : Nat)
    (items : List (LogItem β)) (x : LogItem β) :
    x ∈ filterRecentItems cutoff items ↔
      x ∈ items ∧ ∃ t, itemTime x.timestamp = some t ∧ cutoff ≤ t := by
  induction items with
  | nil => simp [filterRecentItems]
  | cons it rest ih =>
    rw [filterRecentItems]
    cases h : itemTime it.timestamp with
    | none =>
      rw [ih]
      simp only [List.mem_cons]
      constructor
      · rintro ⟨hx, ht⟩
        exact ⟨Or.inr hx, ht⟩
      · rintro ⟨hx | hx, ht⟩
        · subst hx
          obtain ⟨t, ht, -⟩ := ht
          rw [h] at ht
          cases ht
        · exact ⟨hx, ht⟩
    | some t0 =>
      dsimp only
      by_cases hc : cutoff ≤ t0
      · rw [if_pos hc]
        simp only [List.mem_cons, ih]
        constructor
        · rintro (rfl | ⟨hx, ht⟩)
          · exact ⟨Or.inl rfl, t0, h, hc⟩
          · exact ⟨Or.inr hx, ht⟩
        · rintro ⟨hx | hx, ht⟩
          · exact Or.inl hx
          · exact Or.inr ⟨hx, ht⟩
      · rw [if_neg hc, ih]
        simp only [List.mem_cons]
        constructor
        · rintro ⟨hx, ht⟩
          exact ⟨Or.inr hx, ht⟩
        · rintro ⟨hx | hx, ht⟩
          · subst hx
            obtain ⟨t, ht, hct⟩ := ht
            rw [h] at ht
            cases ht
            exact absurd hct hc
          · exact ⟨hx, ht⟩

/-- C8 counterexample — a run that starts at time 0 and reaches the update
point at time 100 records `last_sync_time = 100` (the completion-time reading
of `datetime.now()`), not the recorded `start_time` 0. -/
theorem lastSync_not_start_time :
    (processSharePointDocuments 0 100 (.completed 5) ⟨none, 0⟩).lastSyncTime = some 100 ∧
      (some 100 : Option Nat) ≠ some 0 :=
  ⟨rfl, by decide⟩

/-- C8 amended — on successful completion `last_sync_time` is set to the
current time at the update point (completion time), and on an error or an
empty fetch it is left unchanged entirely. -/
theorem processSharePoint_lastSync_update (startTime completionTime n : Nat)
    (s : SessionState) :
    (processSharePointDocuments startTime completionTime (.completed n) s).lastSyncTime
        = some completionTime ∧
      processSharePointDocuments startTime completionTime .errored s = s ∧
      processSharePointDocuments startTime completionTime .noDocs s = s :=
  ⟨rfl, rfl, rfl⟩

/-- C9 counterexample — decoding the unrecognized format's bytes
`[0x41, 0xFF, 0x42]` yields `[0x41, 0x42]`: the undecodable byte `0xFF` is
dropped (`errors='ignore'`) and contributes no replacement character
`U+FFFD`. -/
theorem fallback_drops_undecodable_bytes :
    extractTextByType (fun _ _ => []) true ("bin") [0x41, 0xFF, 0x42] = [0x41, 0x42] ∧
      (0xFFFD : Nat) ∉ ([0x41, 0x42] : List Nat) :=
  ⟨rfl, by decide⟩

/-- C9 amended — every unrecognized format hint reaches the fallback, which
decodes the bytes as UTF-8 with undecodable bytes ignored (dropped), never
raising and never substituting replacement characters. -/
theorem extract_fallback_decodes_ignoring (handler : String → List Nat → List Nat)
    (pptxAvailable : Bool) (ft : String) (content : List Nat)
    (h : recognizedType pptxAvailable ft = false) :
    extractTextByType handler pptxAvailable ft content = decodeIgnore content := by
  unfold recognizedType at h
  simp only [Bool.or_eq_false_iff, decide_eq_false_iff_not, and_assoc] at h
  obtain ⟨h1, h2, h3, h4, h5, h6, h7, h8, h9, h10⟩ := h
  simp [extractTextByType, h1, h2, h3, h4, h5, h6, h7, h8, h9, h10]

theorem extract_fallback_decodes_ignoring_witness :
    extractTextByType (fun _ _ => []) true ("bin") [0x41, 0xFF, 0x42]
      = decodeIgnore [0x41, 0xFF, 0x42] :=
  extract_fallback_decodes_ignoring (fun _ _ => []) true ("bin") [0x41, 0xFF, 0x42]
    (by decide)

/-! ## Batch-loader lemmas -/

theorem chunkList_cons (n : Nat) (hn : 0 < n) (x : α) (xs : List α) :
    chunkList n (x :: xs) = (x :: xs).take n :: chunkList n ((x :: xs).drop n) := by
  obtain ⟨m, rfl⟩ := Nat.exists_eq_succ_of_ne_zero hn.ne'
  rw [chunkList]
  simp

theorem chunkList_sum_length (n : Nat) (hn : 0 < n) :
    ∀ l : List α, ((chunkList n l).map List.length).sum = l.length := by
  suffices h : ∀ (k : Nat) (l : List α), l.length ≤ k →
      ((chunkList n l).map List.length).sum = l.length from
    fun l => h l.length l le_rfl
  intro k
  induction k with
  | zero =>
    intro l hl
    obtain rfl : l = [] := List.eq_nil_of_length_eq_zero (Nat.le_zero.mp hl)
    simp [chunkList]
  | succ k ih =>
    intro l hl
    cases l with
    | nil => simp [chunkList]
    | cons x xs =>
      rw [chunkList_cons n hn, List.map_cons, List.sum_cons, ih]
      · simp only [List.length_take, List.length_drop]
        omega
      · simp only [List.length_drop, List.length_cons] at hl ⊢
        omega

theorem chunkList_ne_nil (n : Nat) (hn : 0 < n) :
    ∀ (l : List α), ∀ b ∈ chunkList n l, b ≠ [] := by
  suffices h : ∀ (k : Nat) (l : List α), l.length ≤ k →
      ∀ b ∈ chunkList n l, b ≠ [] from fun l => h l.length l le_rfl
  intro k
  induction k with
  | zero =>
    intro l hl
    obtain rfl : l = [] := List.eq_nil_of_length_eq_zero (Nat.le_zero.mp hl)
    simp [chunkList]
  | succ k ih =>
    intro l hl b hb
    cases l with
    | nil => simp [chunkList] at hb
    | cons x xs =>
      rw [chunkList_cons n hn] at hb
      rcases List.mem_cons.mp hb with rfl | hb
      · simp only [ne_eq, List.take_eq_nil_iff, not_or]
        exact ⟨by omega, by simp⟩
      · exact ih ((x :: xs).drop n)
          (by simp only [List.length_drop, List.length_cons] at hl ⊢; omega) b hb

theorem sliceBatches_eq_chunkList (n : Nat) (hn : 0 < n) :
    ∀ l : List α, sliceBatches n l = chunkList n l := by
  suffices h : ∀ (k : Nat) (l : List α), l.length ≤ k →
      sliceBatches n l = chunkList n l from fun l => h l.length l le_rfl
  intro k
  induction k with
  | zero =>
    intro l hl
    obtain rfl : l = [] := List.eq_nil_of_length_eq_zero (Nat.le_zero.mp hl)
    simp [sliceBatches, chunkList, Nat.div_eq_of_lt (by omega : n - 1 < n)]
  | succ k ih =>
    intro l hl
    cases l with
    | nil => simp [sliceBatches, chunkList, Nat.div_eq_of_lt (by omega : n - 1 < n)]
    | cons x xs =>
      have hdroplen : ((x :: xs).drop n).length ≤ k := by
        simp only [List.length_drop, List.length_cons] at hl ⊢
        omega
      rw [chunkList_cons n hn, ← ih _ hdroplen]
      unfold sliceBatches
      have hm : ((x :: xs).length + n - 1) / n = (((x :: xs).drop n).length + n - 1) / n + 1 := by
        simp only [List.length_drop, List.length_cons]
        rcases le_or_lt (xs.length + 1) n with hle | hlt
        · have h1 : xs.length + 1 - n = 0 := by omega
          rw [h1, Nat.div_eq_of_lt (by omega : 0 + n - 1 < n)]
          have h2 : xs.length + 1 + n - 1 = n * 1 + (xs.length - 0) := by omega
          rw [h2, Nat.mul_add_div hn]
          have : (xs.length - 0) / n = 0 := Nat.div_eq_of_lt (by omega)
          omega
        · have h1 : xs.length + 1 + n - 1 = xs.length + n := by omega
          have h2 : xs.length + 1 - n + n - 1 = xs.length := by omega
          rw [h1, h2, Nat.add_div_right _ hn]
      rw [hm, List.range_succ_eq_map, List.map_cons, List.map_map]
      congr 1
      · simp
      · refine List.map_congr_left fun i _ => ?_
        simp only [Function.comp_apply, List.drop_drop, Nat.succ_mul]
        rw [Nat.add_comm (i * n) n]

theorem runBatches_sum (insertOk : Nat → Bool) (prepOk : α → Bool) :
    ∀ (batches : List (List α)) (i : Nat),
      (runBatches insertOk prepOk i batches).1 + (runBatches insertOk prepOk i batches).2.1
        = (batches.map List.length).sum := by
  intro batches
  induction batches with
  | nil => intro i; simp [runBatches]
  | cons b rest ih =>
    intro i
    have hle : (b.filter prepOk).length ≤ b.length := b.length_filter_le prepOk
    have hr := ih (i + 1)
    rw [runBatches]
    split
    · simp only [List.map_cons, List.sum_cons]
      have hlen : (b.filter prepOk).length = 0 := by
        simp only [List.isEmpty_iff] at *
        simp [*]
      omega
    · split <;> (simp only [List.map_cons, List.sum_cons]; omega)

theorem runBatches_all_prepared (insertOk : Nat → Bool) :
    ∀ (batches : List (List α)) (i : Nat), (∀ b ∈ batches, b ≠ []) →
      runBatches insertOk (fun _ => true) i batches
        = (batchOutcomeSum insertOk true i batches,
           batchOutcomeSum insertOk false i batches,
           List.range' i batches.length) := by
  intro batches
  induction batches with
  | nil => intro i _; simp [runBatches, batchOutcomeSum, List.range']
  | cons b rest ih =>
    intro i hne
    have hb : ¬b.isEmpty := by
      simp only [List.isEmpty_iff]
      exact hne b (List.mem_cons_self b rest)
    rw [runBatches]
    simp only [List.filter_true, hb, if_false, Nat.sub_self,
      ih (i + 1) fun c hc => hne c (List.mem_cons_of_mem b hc)]
    rw [batchOutcomeSum, batchOutcomeSum]
    cases hok : insertOk i <;>
      simp [List.range', List.length_cons, Nat.zero_add]

theorem batchOutcomeSum_never (want : Bool) :
    ∀ (batches : List (List α)) (i : Nat),
      batchOutcomeSum (fun _ => !want) want i batches = 0 := by
  intro batches
  induction batches with
  | nil => intro i; rw [batchOutcomeSum]
  | cons b rest ih =>
    intro i
    rw [batchOutcomeSum, ih]
    cases want <;> simp

theorem batchOutcomeSum_always (want : Bool) :
    ∀ (batches : List (List α)) (i : Nat),
      batchOutcomeSum (fun _ => want) want i batches = (batches.map List.length).sum := by
  intro batches
  induction batches with
  | nil => intro i; rw [batchOutcomeSum]; simp
  | cons b rest ih =>
    intro i
    rw [batchOutcomeSum, ih]
    simp

theorem insertDocuments_true_eq {α : Type} (documents : List α)
    (insertOk : Nat → Bool) (prepOk : α → Bool) :
    insertDocuments true insertOk prepOk documents
      = (⟨(runBatches insertOk prepOk 0 (sliceBatches 20 documents)).1,
          (runBatches insertOk prepOk 0 (sliceBatches 20 documents)).2.1,
          documents.length⟩,
         (runBatches insertOk prepOk 0 (sliceBatches 20 documents)).2.2) := by
  unfold insertDocuments
  rw [if_neg (by simp)]

/-- C2 — for every document list and every store behavior: the returned counts
always satisfy `successful + failed = N` and `total = N`; and (all documents
preparing cleanly) the successful count is the total size of the accepted
batches, the failed count is the total size of the rejected batches — a
rejected batch marks exactly its own documents failed — and *every* batch is
submitted to the store (`insert_many` attempted), regardless of which earlier
batches failed. -/
theorem insertDocuments_batch_accounting {α : Type} (documents : List α)
    (insertOk : Nat → Bool) (prepOk : α → Bool) :
    (∀ collectionAvailable : Bool,
      (insertDocuments collectionAvailable insertOk prepOk documents).1.successful +
          (insertDocuments collectionAvailable insertOk prepOk documents).1.failed
            = documents.length ∧
        (insertDocuments collectionAvailable insertOk prepOk documents).1.total
            = documents.length) ∧
      ((insertDocuments true insertOk (fun _ => true) documents).1.successful
            = batchOutcomeSum insertOk true 0 (sliceBatches 20 documents) ∧
        (insertDocuments true insertOk (fun _ => true) documents).1.failed
            = batchOutcomeSum insertOk false 0 (sliceBatches 20 documents) ∧
        (insertDocuments true insertOk (fun _ => true) documents).2
            = List.range (sliceBatches 20 documents).length) := by
  have h20 : (0 : Nat) < 20 := by norm_num
  have hslice := sliceBatches_eq_chunkList 20 h20 documents
  constructor
  · intro avail
    cases avail with
    | false => simp [insertDocuments]
    | true =>
      rw [insertDocuments_true_eq]
      refine ⟨?_, rfl⟩
      dsimp only
      rw [hslice, runBatches_sum insertOk prepOk (chunkList 20 documents) 0,
        chunkList_sum_length 20 h20]
  · have hrun := runBatches_all_prepared insertOk (sliceBatches 20 documents) 0
      (by rw [hslice]; exact chunkList_ne_nil 20 h20 documents)
    rw [insertDocuments_true_eq, hrun]
    exact ⟨rfl, rfl, (List.range_eq_range' _).symm ▸ rfl⟩

/-- C10 — `insert_documents` is total (the Python wraps everything in
`try/except` branches that return a dictionary) and always reports
`total = N`; when no collection is available it returns
`successful = 0, failed = N`; and even when the store rejects every batch it
still returns counts, with `successful = 0` and `failed = N`. -/
theorem insertDocuments_never_raises {α : Type} (documents : List α)
    (insertOk : Nat → Bool) (prepOk : α → Bool) :
    (insertDocuments false insertOk prepOk documents).1
        = ⟨0, documents.length, documents.length⟩ ∧
      (∀ collectionAvailable : Bool,
        (insertDocuments collectionAvailable insertOk prepOk documents).1.total
          = documents.length) ∧
      ((insertDocuments true (fun _ => false) (fun _ => true) documents).1.successful = 0 ∧
        (insertDocuments true (fun _ => false) (fun _ => true) documents).1.failed
          = documents.length) := by
  have h20 : (0 : Nat) < 20 := by norm_num
  have hslice := sliceBatches_eq_chunkList 20 h20 documents
  refine ⟨by simp [insertDocuments], ?_, ?_⟩
  · intro avail
    cases avail with
    | false => simp [insertDocuments]
    | true => simp [insertDocuments]
  · have hrun := runBatches_all_prepared (fun _ => false) (sliceBatches 20 documents) 0
      (by rw [hslice]; exact chunkList_ne_nil 20 h20 documents)
    rw [insertDocuments_true_eq, hrun]
    constructor
    · exact batchOutcomeSum_never true (sliceBatches 20 documents) 0
    · show batchOutcomeSum (fun _ => false) false 0 (sliceBatches 20 documents)
        = documents.length
      rw [batchOutcomeSum_always false (sliceBatches 20 documents) 0, hslice,
        chunkList_sum_length 20 h20]

/-! ## Symbolic chunker lemmas for the 2,400-character scenario -/

theorem dropWhile_replicate_append (c : Char) (hc : isPySpace c = false) (m : Nat)
    (hm : 0 < m) (l : List Char) :
    (List.replicate m c ++ l).dropWhile isPySpace = List.replicate m c ++ l := by
  obtain ⟨k, rfl⟩ := Nat.exists_eq_succ_of_ne_zero hm.ne'
  rw [List.replicate_succ, List.cons_append, List.dropWhile_cons, hc]
  simp

theorem pyStrip_token (m : Nat) (hm : 0 < m) (c : Char) (hc : isPySpace c = false) :
    pyStrip (List.replicate m c) = List.replicate m c := by
  unfold pyStrip
  have h1 := dropWhile_replicate_append c hc m hm []
  rw [List.append_nil] at h1
  rw [h1, List.reverse_replicate, h1, List.reverse_replicate]

theorem pyStrip_two_tokens (m n : Nat) (hm : 0 < m) (hn : 0 < n) (c d : Char)
    (hc : isPySpace c = false) (hd : isPySpace d = false) :
    pyStrip (List.replicate m c ++ List.replicate n d)
      = List.replicate m c ++ List.replicate n d := by
  unfold pyStrip
  rw [dropWhile_replicate_append c hc m hm, List.reverse_append, List.reverse_replicate,
    List.reverse_replicate, dropWhile_replicate_append d hd n hn, List.reverse_append,
    List.reverse_replicate, List.reverse_replicate]

theorem mem_of_isPrefixOf :
    ∀ {sep s : List Char}, sep.isPrefixOf s → ∀ x ∈ sep, x ∈ s := by
  intro sep
  induction sep with
  | nil => intro s _ x hx; simp at hx
  | cons a as ih =>
    intro s h x hx
    cases s with
    | nil => simp [List.isPrefixOf] at h
    | cons b bs =>
      simp only [List.isPrefixOf, Bool.and_eq_true, beq_iff_eq] at h
      rcases List.mem_cons.mp hx with rfl | hx
      · exact h.1 ▸ List.mem_cons_self b bs
      · exact List.mem_cons_of_mem b (ih h.2 x hx)

theorem pySplitAux_no_occurrence (sep : List Char) (x : Char) (hx : x ∈ sep) :
    ∀ (fuel : Nat) (s acc : List Char), x ∉ s →
      pySplitAux sep fuel acc s = [acc.reverse ++ s] := by
  intro fuel
  induction fuel with
  | zero => intro s acc _; rfl
  | succ f ih =>
    intro s acc hxs
    rw [pySplitAux.eq_def]
    dsimp only
    rw [if_neg (fun h => hxs (mem_of_isPrefixOf h.1 x hx))]
    cases s with
    | nil => simp
    | cons c rest =>
      dsimp only
      rw [ih rest (c :: acc) (fun h => hxs (List.mem_cons_of_mem c h))]
      simp

theorem pySplit_no_occurrence (sep : List Char) (x : Char) (hx : x ∈ sep)
    (s : List Char) (hxs : x ∉ s) : pySplit sep s = [s] := by
  rw [pySplit, pySplitAux_no_occurrence sep x hx _ s [] hxs]
  simp

theorem pySplitAux_space (R : List Char) :
    ∀ (A acc : List Char) (fuel : Nat), A.length + 1 ≤ fuel → ' ' ∉ A →
      pySplitAux [' '] fuel acc (A ++ ' ' :: R)
        = (acc.reverse ++ A) :: pySplitAux [' '] (fuel - (A.length + 1)) [] R := by
  intro A
  induction A with
  | nil =>
    intro acc fuel hf _
    obtain ⟨f, rfl⟩ : ∃ f, fuel = f + 1 := ⟨fuel - 1, by omega⟩
    rw [pySplitAux.eq_def]
    dsimp only
    rw [if_pos (by simp [List.isPrefixOf])]
    simp
  | cons c A ih =>
    intro acc fuel hf hA
    obtain ⟨f, rfl⟩ : ∃ f, fuel = f + 1 := ⟨fuel - 1, by omega⟩
    have hc : ¬(' ' : Char) = c := fun h => hA (h ▸ List.mem_cons_self c A)
    rw [List.cons_append, pySplitAux.eq_def]
    dsimp only
    rw [if_neg (by simp [List.isPrefixOf, hc])]
    rw [ih (c :: acc) f (by simp only [List.length_cons] at hf ⊢; omega)
      (fun h => hA (List.mem_cons_of_mem c h))]
    have harith : f - (A.length + 1) = f + 1 - ((c :: A).length + 1) := by
      simp only [List.length_cons]
      omega
    rw [harith]
    simp

theorem applySep_long_single (chunkSize : Nat) (sep t : List Char)
    (h : chunkSize < t.length) (hsep : sep.isEmpty = false) :
    applySep chunkSize sep [t] = .ok (pySplit sep t) := by
  rw [applySep.eq_def]
  dsimp only
  rw [if_pos h]
  simp [hsep, applySep]

theorem applySep_all_short (chunkSize : Nat) (sep : List Char) :
    ∀ splits : List (List Char), (∀ s ∈ splits, s.length ≤ chunkSize) →
      applySep chunkSize sep splits = .ok splits := by
  intro splits
  induction splits with
  | nil => intro _; rfl
  | cons s rest ih =>
    intro h
    rw [applySep.eq_def]
    dsimp only
    rw [if_neg (by have := h s (List.mem_cons_self s rest); omega),
      ih fun u hu => h u (List.mem_cons_of_mem s hu)]

theorem pySplit_tokText (n₁ n₂ n₃ : Nat) :
    pySplit [' '] (tokText n₁ n₂ n₃)
      = [List.replicate n₁ 'a', List.replicate n₂ 'b', List.replicate n₃ 'c'] := by
  have hA : (' ' : Char) ∉ List.replicate n₁ 'a' := by simp [List.mem_replicate]
  have hB : (' ' : Char) ∉ List.replicate n₂ 'b' := by simp [List.mem_replicate]
  have hC : (' ' : Char) ∉ List.replicate n₃ 'c' := by simp [List.mem_replicate]
  unfold pySplit tokText
  simp only [List.length_append, List.length_cons, List.length_replicate]
  rw [pySplitAux_space _ _ _ _ (by simp only [List.length_replicate]; omega) hA]
  rw [pySplitAux_space _ _ _ _ (by simp only [List.length_replicate]; omega) hB]
  rw [pySplitAux_no_occurrence [' '] ' ' (List.mem_singleton_self ' ') _ _ _ hC]
  simp

theorem not_mem_tokText (x : Char) (hxa : x ≠ 'a') (hxb : x ≠ 'b') (hxc : x ≠ 'c')
    (hxs : x ≠ ' ') (n₁ n₂ n₃ : Nat) : x ∉ tokText n₁ n₂ n₃ := by
  intro hmem
  simp only [tokText, List.mem_append, List.mem_cons, List.mem_replicate] at hmem
  rcases hmem with ⟨-, h⟩ | h | ⟨-, h⟩ | h | ⟨-, h⟩ <;> [skip; exact hxs h; skip; exact hxs h; skip]
  · exact hxa h
  · exact hxb h
  · exact hxc h

theorem applySeps_default_tokText (chunkSize n₁ n₂ n₃ : Nat)
    (hc1 : n₁ ≤ chunkSize) (hc2 : n₂ ≤ chunkSize) (hc3 : n₃ ≤ chunkSize)
    (hlong : chunkSize < (tokText n₁ n₂ n₃).length) :
    applySeps chunkSize defaultSeparators [tokText n₁ n₂ n₃]
      = .ok [List.replicate n₁ 'a', List.replicate n₂ 'b', List.replicate n₃ 'c'] := by
  have hnl := not_mem_tokText '\n' (by simp) (by simp) (by simp) (by simp) n₁ n₂ n₃
  have hdot := not_mem_tokText '.' (by simp) (by simp) (by simp) (by simp) n₁ n₂ n₃
  have h1 : applySep chunkSize ['\n', '\n'] [tokText n₁ n₂ n₃] = .ok [tokText n₁ n₂ n₃] := by
    rw [applySep_long_single chunkSize ['\n', '\n'] _ hlong rfl,
      pySplit_no_occurrence _ '\n' (by simp) _ hnl]
  have h2 : applySep chunkSize ['\n'] [tokText n₁ n₂ n₃] = .ok [tokText n₁ n₂ n₃] := by
    rw [applySep_long_single chunkSize ['\n'] _ hlong rfl,
      pySplit_no_occurrence _ '\n' (by simp) _ hnl]
  have h3 : applySep chunkSize ['.', ' '] [tokText n₁ n₂ n₃] = .ok [tokText n₁ n₂ n₃] := by
    rw [applySep_long_single chunkSize ['.', ' '] _ hlong rfl,
      pySplit_no_occurrence _ '.' (by simp) _ hdot]
  have h4 : applySep chunkSize [' '] [tokText n₁ n₂ n₃]
      = .ok [List.replicate n₁ 'a', List.replicate n₂ 'b', List.replicate n₃ 'c'] := by
    rw [applySep_long_single chunkSize [' '] _ hlong rfl, pySplit_tokText]
  have h5 : applySep chunkSize []
      [List.replicate n₁ 'a', List.replicate n₂ 'b', List.replicate n₃ 'c']
      = .ok [List.replicate n₁ 'a', List.replicate n₂ 'b', List.replicate n₃ 'c'] := by
    refine applySep_all_short chunkSize [] _ fun s hs => ?_
    rcases List.mem_cons.mp hs with rfl | hs
    · simpa using hc1
    rcases List.mem_cons.mp hs with rfl | hs
    · simpa using hc2
    rcases List.mem_cons.mp hs with rfl | hs
    · simpa using hc3
    · simp at hs
  show applySeps chunkSize (['\n', '\n'] :: ['\n'] :: ['.', ' '] :: [' '] :: [] :: [])
    [tokText n₁ n₂ n₃] = _
  rw [applySeps, h1]
  dsimp only
  rw [applySeps, h2]
  dsimp only
  rw [applySeps, h3]
  dsimp only
  rw [applySeps, h4]
  dsimp only
  rw [applySeps, h5]
  dsimp only
  rw [applySeps]

theorem combineSplits_step_fit (chunkSize chunkOverlap : Nat)
    (chunks : List (List Char)) (current s : List Char) (rest : List (List Char))
    (h : current.length + s.length ≤ chunkSize) :
    combineSplits chunkSize chunkOverlap chunks current (s :: rest)
      = combineSplits chunkSize chunkOverlap chunks (current ++ s) rest := by
  rw [combineSplits, if_pos h]

theorem combineSplits_step_overflow (chunkSize chunkOverlap : Nat)
    (chunks : List (List Char)) (current s : List Char) (rest : List (List Char))
    (h : ¬(current.length + s.length ≤ chunkSize)) (hcur : current.isEmpty = false)
    (hov : 0 < chunkOverlap) :
    combineSplits chunkSize chunkOverlap chunks current (s :: rest)
      = combineSplits chunkSize chunkOverlap (chunks ++ [pyStrip current])
          ((if chunkOverlap < ((chunks ++ [pyStrip current]).getLastD []).length then
              ((chunks ++ [pyStrip current]).getLastD []).drop
                (((chunks ++ [pyStrip current]).getLastD []).length - chunkOverlap)
            else (chunks ++ [pyStrip current]).getLastD []) ++ s) rest := by
  rw [combineSplits, if_neg h]
  rw [hcur]
  simp only [Bool.false_eq_true, if_false]
  rw [if_pos ⟨hov, by simp⟩]

theorem combineSplits_three_tokens (chunkSize chunkOverlap n₁ n₂ n₃ : Nat)
    (h1 : 0 < n₁) (h2 : 0 < n₂) (hov : 0 < chunkOverlap)
    (hovn1 : chunkOverlap < n₁) (hovn2 : chunkOverlap ≤ n₂)
    (hc1 : n₁ ≤ chunkSize) (hn12 : chunkSize < n₁ + n₂)
    (hn23 : chunkSize < chunkOverlap + n₂ + n₃) :
    combineSplits chunkSize chunkOverlap [] []
        [List.replicate n₁ 'a', List.replicate n₂ 'b', List.replicate n₃ 'c']
      = ([List.replicate n₁ 'a',
          List.replicate chunkOverlap 'a' ++ List.replicate n₂ 'b'],
         List.replicate chunkOverlap 'b' ++ List.replicate n₃ 'c') := by
  have hAstrip : pyStrip (List.replicate n₁ 'a') = List.replicate n₁ 'a' :=
    pyStrip_token n₁ h1 'a' (by decide)
  have hABstrip :
      pyStrip (List.replicate chunkOverlap 'a' ++ List.replicate n₂ 'b')
        = List.replicate chunkOverlap 'a' ++ List.replicate n₂ 'b' :=
    pyStrip_two_tokens chunkOverlap n₂ hov h2 'a' 'b' (by decide) (by decide)
  rw [combineSplits_step_fit _ _ _ _ _ _
    (by simp only [List.length_nil, List.length_replicate]; omega), List.nil_append]
  rw [combineSplits_step_overflow _ _ _ _ _ _
    (by simp only [List.length_replicate]; omega)
    (by simp [List.isEmpty_iff, List.replicate_eq_nil_iff]; omega) hov]
  rw [List.nil_append, hAstrip]
  have hlast1 : ([List.replicate n₁ 'a'].getLastD ([] : List Char))
      = List.replicate n₁ 'a' := by simp
  rw [hlast1, if_pos (by simp only [List.length_replicate]; exact hovn1)]
  have hdrop1 : (List.replicate n₁ 'a').drop ((List.replicate n₁ 'a').length - chunkOverlap)
      = List.replicate chunkOverlap 'a' := by
    rw [List.length_replicate, List.drop_replicate]
    congr 1
    omega
  rw [hdrop1]
  rw [combineSplits_step_overflow _ _ _ _ _ _
    (by simp only [List.length_append, List.length_replicate]; omega)
    (by simp [List.isEmpty_iff, List.append_eq_nil, List.replicate_eq_nil_iff]; omega) hov]
  rw [hABstrip]
  have hcons2 : ([List.replicate n₁ 'a'] ++
      [List.replicate chunkOverlap 'a' ++ List.replicate n₂ 'b'])
      = [List.replicate n₁ 'a',
         List.replicate chunkOverlap 'a' ++ List.replicate n₂ 'b'] := by simp
  rw [hcons2]
  have hlast2 : ([List.replicate n₁ 'a',
      List.replicate chunkOverlap 'a' ++ List.replicate n₂ 'b'].getLastD ([] : List Char))
      = List.replicate chunkOverlap 'a' ++ List.replicate n₂ 'b' := by simp
  rw [hlast2, if_pos (by simp only [List.length_append, List.length_replicate]; omega)]
  have hdrop2 : (List.replicate chunkOverlap 'a' ++ List.replicate n₂ 'b').drop
      ((List.replicate chunkOverlap 'a' ++ List.replicate n₂ 'b').length - chunkOverlap)
      = List.replicate chunkOverlap 'b' := by
    have hsplit : List.replicate n₂ 'b'
        = List.replicate (n₂ - chunkOverlap) 'b' ++ List.replicate chunkOverlap 'b' := by
      rw [← List.replicate_add]
      congr 1
      omega
    rw [hsplit, ← List.append_assoc, List.drop_left']
    simp only [List.length_append, List.length_replicate]
    omega
  rw [hdrop2, combineSplits]

theorem splitText_three_tokens (chunkSize chunkOverlap n₁ n₂ n₃ : Nat)
    (h1 : 0 < n₁) (h2 : 0 < n₂) (h3 : 0 < n₃) (hov : 0 < chunkOverlap)
    (hovn1 : chunkOverlap < n₁) (hovn2 : chunkOverlap ≤ n₂)
    (hc1 : n₁ ≤ chunkSize) (hc2 : n₂ ≤ chunkSize) (hc3 : n₃ ≤ chunkSize)
    (hn12 : chunkSize < n₁ + n₂) (hn23 : chunkSize < chunkOverlap + n₂ + n₃) :
    splitText chunkSize chunkOverlap (tokText n₁ n₂ n₃)
      = .ok [List.replicate n₁ 'a',
             List.replicate chunkOverlap 'a' ++ List.replicate n₂ 'b',
             List.replicate chunkOverlap 'b' ++ List.replicate n₃ 'c'] := by
  have hlen : (tokText n₁ n₂ n₃).length = n₁ + n₂ + n₃ + 2 := by
    simp only [tokText, List.length_append, List.length_cons, List.length_replicate]
    omega
  have hlong : chunkSize < (tokText n₁ n₂ n₃).length := by
    rw [hlen]; omega
  unfold splitText
  rw [if_neg (by
    simp only [not_or, not_le, List.isEmpty_iff]
    exact ⟨fun heq => by rw [heq] at hlen; simp at hlen, hlong⟩)]
  rw [applySeps_default_tokText chunkSize n₁ n₂ n₃ hc1 hc2 hc3 hlong]
  dsimp only
  rw [combineSplits_three_tokens chunkSize chunkOverlap n₁ n₂ n₃ h1 h2 hov hovn1 hovn2
    hc1 hn12 hn23]
  dsimp only
  have hBCne : (List.replicate chunkOverlap 'b' ++ List.replicate n₃ 'c').isEmpty = false := by
    simp [List.append_eq_nil, List.replicate_eq_nil_iff]
    omega
  rw [hBCne]
  simp only [Bool.false_eq_true, if_false]
  rw [pyStrip_two_tokens chunkOverlap n₃ hov h3 'b' 'c' (by decide) (by decide)]
  rw [List.filter_eq_self.mpr]
  · simp
  · intro a ha
    simp only [List.append_assoc, List.cons_append, List.nil_append, List.mem_cons,
      List.not_mem_nil, or_false] at ha
    rcases ha with rfl | rfl | rfl
    · rw [pyStrip_token n₁ h1 'a' (by decide)]
      simp only [decide_eq_true_eq, List.isEmpty_iff, List.replicate_eq_nil_iff]
      omega
    · rw [pyStrip_two_tokens chunkOverlap n₂ hov h2 'a' 'b' (by decide) (by decide)]
      simp only [decide_eq_true_eq, List.isEmpty_iff, List.append_eq_nil,
        List.replicate_eq_nil_iff]
      omega
    · rw [pyStrip_two_tokens chunkOverlap n₃ hov h3 'b' 'c' (by decide) (by decide)]
      simp only [decide_eq_true_eq, List.isEmpty_iff, List.append_eq_nil,
        List.replicate_eq_nil_iff]
      omega

/-- C4 counterexample — the 2,400-character text `overflowText`
(900 `a`s, space, 900 `b`s, space, 598 `c`s) split with
`chunkSize = 1000, chunkOverlap = 200` yields a second chunk of 1,100
characters: the overlap seed plus the next split exceeds `chunkSize`, so not
every returned chunk has length at most 1000. -/
theorem splitText_chunk_exceeds_chunkSize :
    splitText 1000 200 overflowText
        = .ok [List.replicate 900 'a',
               List.replicate 200 'a' ++ List.replicate 900 'b',
               List.replicate 200 'b' ++ List.replicate 598 'c'] ∧
      overflowText.length = 2400 ∧
      (List.replicate 200 'a' ++ List.replicate 900 'b').length = 1100 ∧
      1000 < (List.replicate 200 'a' ++ List.replicate 900 'b').length := by
  refine ⟨?_, ?_,
    by simp only [List.length_append, List.length_replicate],
    by simp only [List.length_append, List.length_replicate]; omega⟩
  · exact splitText_three_tokens 1000 200 900 900 598 (by omega) (by omega) (by omega)
      (by omega) (by omega) (by omega) (by omega) (by omega) (by omega) (by omega) (by omega)
  · simp only [overflowText, tokText, List.length_append, List.length_cons,
      List.length_replicate]

/-- C4 amended — there is a 2,400-character text (`scenarioText`: 800 `a`s,
space, 800 `b`s, space, 798 `c`s) on which the scenario holds exactly:
3 chunks, each at most 1,000 characters, and chunk 2 begins with the last 200
characters of chunk 1.  (This does not hold for every 2,400-character text,
and in general a chunk seeded with the previous chunk's trailing overlap can
exceed `chunkSize` — see the counterexample.) -/
theorem splitText_scenario_realized :
    splitText 1000 200 scenarioText
        = .ok [List.replicate 800 'a',
               List.replicate 200 'a' ++ List.replicate 800 'b',
               List.replicate 200 'b' ++ List.replicate 798 'c'] ∧
      scenarioText.length = 2400 ∧
      (List.replicate 800 'a').length ≤ 1000 ∧
      (List.replicate 200 'a' ++ List.replicate 800 'b').length ≤ 1000 ∧
      (List.replicate 200 'b' ++ List.replicate 798 'c').length ≤ 1000 ∧
      (List.replicate 200 'a' ++ List.replicate 800 'b').take 200
        = (List.replicate 800 'a').drop ((List.replicate 800 'a').length - 200) := by
  refine ⟨?_, ?_,
    by simp only [List.length_replicate]; omega,
    by simp only [List.length_append, List.length_replicate]; omega,
    by simp only [List.length_append, List.length_replicate]; omega, ?_⟩
  · exact splitText_three_tokens 1000 200 800 800 798 (by omega) (by omega) (by omega)
      (by omega) (by omega) (by omega) (by omega) (by omega) (by omega) (by omega) (by omega)
  · simp only [scenarioText, tokText, List.length_append, List.length_cons,
      List.length_replicate]
  · rw [List.take_left' (by rw [List.length_replicate]), List.length_replicate,
      List.drop_replicate]

end LlamaIndexStreamlit
